import Mathlib

/-!
Shallow embedding of the oneXRD analysis and import routines, with proofs
about their behaviour.

Conventions of the embedding:
* Python / numpy floating-point numbers are modelled as exact rationals (ℚ).
* numpy arrays and Python lists are modelled as Lean `List`s.
* Python strings are modelled as `List Char`.
* Functions that raise exceptions are modelled with `Except`.
-/

namespace OneXRD

/-! ## `oneXRD.analysis.background`

Embeds `subtract_polynomial` and `subtract_iterative_erosion` from
`src/oneXRD/analysis/background.py`.
-/

/-- Errors that `subtract_polynomial` can raise: the explicit
`BackgroundError` guard ("Must select at least ... points"), and the
`IndexError` numpy raises when a fancy index is out of range. -/
inductive BgError where
  | insufficientAnchors : BgError
  | indexError : BgError
deriving DecidableEq

/-- One entry of the Gram matrix `Vᵀ·V` of the Vandermonde matrix that
`np.polyfit` builds (highest power first): row `i`, column `j`. -/
def gramEntry (xs : List ℚ) (order i j : ℕ) : ℚ :=
  (xs.map (fun x => x ^ (order - i) * x ^ (order - j))).sum

/-- One entry of the moment vector `Vᵀ·y` of the least-squares problem
`np.polyfit` solves. -/
def momentEntry (xs ys : List ℚ) (order i : ℕ) : ℚ :=
  (List.zipWith (fun x y => x ^ (order - i) * y) xs ys).sum

/-- The augmented normal system `[Vᵀ·V | Vᵀ·y]` of the polynomial
least-squares fit: solving it yields the coefficients `np.polyfit`
returns, highest degree first. -/
def normalSystem (xs ys : List ℚ) (order : ℕ) : List (List ℚ) :=
  (List.range (order + 1)).map (fun i =>
    (List.range (order + 1)).map (fun j => gramEntry xs order i j) ++ [momentEntry xs ys order i])

/-- Find the first row of an augmented matrix whose leading entry is
nonzero; return it with the remaining rows (order preserved). -/
def findPivot : List (List ℚ) → Option (List ℚ × List (List ℚ))
  | [] => none
  | r :: rs =>
    if r.headD 0 ≠ 0 then some (r, rs)
    else
      match findPivot rs with
      | none => none
      | some (p, rest) => some (p, r :: rest)

/-- Eliminate the leading column of row `r` using pivot row `p`. -/
def elimRow (p r : List ℚ) : List ℚ :=
  match p, r with
  | a :: ps, b :: rs => List.zipWith (fun x y => y - b / a * x) ps rs
  | _, r => List.drop 1 r

/-- Gaussian elimination with back substitution on an augmented system
with `m` unknowns.  A column with no pivot gets coefficient `0` (a
rank-deficient system; `np.polyfit` returns a least-squares solution
there, which no claim depends on). -/
def gaussSolve : ℕ → List (List ℚ) → List ℚ
  | 0, _ => []
  | m + 1, rows =>
    match findPivot rows with
    | none => 0 :: gaussSolve m (rows.map (List.drop 1))
    | some (p, rest) =>
      let tail := gaussSolve m (rest.map (elimRow p))
      let ps := p.drop 1
      (ps.getLastD 0 - (List.zipWith (fun c x => c * x) ps.dropLast tail).sum) / p.headD 1 :: tail

/-- Model of `np.polyfit(xs, ys, order)`: solve the normal equations of
the Vandermonde least-squares problem.  Coefficients are returned
highest degree first, as numpy does. -/
def polyfit (xs ys : List ℚ) (order : ℕ) : List ℚ :=
  gaussSolve (order + 1) (normalSystem xs ys order)

/-- Model of `np.poly1d(coeffs)(x)`: Horner evaluation, coefficients
highest degree first. -/
def polyval (coeffs : List ℚ) (x : ℚ) : ℚ :=
  coeffs.foldl (fun acc c => acc * x + c) 0

/-- Embedding of `subtract_polynomial(angles, intensities,
selected_indices, poly_order)`:

```
if len(selected_indices) <= poly_order:
    raise BackgroundError(...)
selected_angles = angles[selected_indices]
selected_intensities = intensities[selected_indices]
coeffs = np.polyfit(selected_angles, selected_intensities, poly_order)
p = np.poly1d(coeffs)
return p(angles)
```

numpy fancy indexing raises `IndexError` on an out-of-range index,
modelled by the second guard. -/
def subtract_polynomial (angles intensities : List ℚ) (selected_indices : List ℕ)
    (poly_order : ℕ) : Except BgError (List ℚ) :=
  if selected_indices.length ≤ poly_order then
    Except.error BgError.insufficientAnchors
  else if selected_indices.any (fun i => angles.length ≤ i || intensities.length ≤ i) then
    Except.error BgError.indexError
  else
    let selected_angles := selected_indices.map (fun i => angles.getD i 0)
    let selected_intensities := selected_indices.map (fun i => intensities.getD i 0)
    let coeffs := polyfit selected_angles selected_intensities poly_order
    Except.ok (angles.map (polyval coeffs))

/-- One pass of `subtract_iterative_erosion`'s loop body:

```
shifted_left = np.roll(background, 1)    -- index i holds b[(i-1) mod n]
shifted_right = np.roll(background, -1)  -- index i holds b[(i+1) mod n]
neighbors_avg = (shifted_left + shifted_right) / 2.0
background = np.minimum(background, neighbors_avg)
```
-/
def erosionStep (b : List ℚ) : List ℚ :=
  (List.range b.length).map (fun i =>
    min (b.getD i 0)
      ((b.getD ((i + b.length - 1) % b.length) 0 + b.getD ((i + 1) % b.length) 0) / 2))

/-- Embedding of `subtract_iterative_erosion(intensities, iterations)`:
`background = np.copy(intensities)` then `iterations` passes of the
erosion step. -/
def subtract_iterative_erosion (intensities : List ℚ) (iterations : ℕ) : List ℚ :=
  erosionStep^[iterations] intensities

/-! ## `oneXRD.importers.readers.bruker_reader`

Embeds `read_bruker_raw_v4` from
`src/oneXRD/importers/readers/bruker_reader.py`, from the point where
the 2048-byte header has been decoded: the regex searches either find
`START`, `STEPSIZE` and `COUNT` (the `Option` fields) or the reader
fails.  The binary payload after byte 2048 is the list of float32
values `np.fromfile` reads (`np.fromfile` returns at most `count`
values). -/

/-- The header metadata extracted by the three regex searches. -/
structure BrukerHeader where
  start : Option ℚ
  stepsize : Option ℚ
  count : Option ℕ

/-- Embedding of `read_bruker_raw_v4`:

```
if not all([start_match, step_match, count_match]): raise DataImportError(...)
intensities = np.fromfile(f, dtype=np.float32, count=count)
if len(intensities) != count: raise DataImportError(...)
angles = np.arange(count, dtype=np.float32) * step_size + start_angle
return angles, intensities
```
-/
def brukerAngles (start_angle step_size : ℚ) (count : ℕ) : List ℚ :=
  (List.range count).map (fun i : ℕ => (i : ℚ) * step_size + start_angle)

def read_bruker_raw_v4 (header : BrukerHeader) (payload : List ℚ) :
    Except String (List ℚ × List ℚ) :=
  match header.start, header.stepsize, header.count with
  | some start_angle, some step_size, some count =>
    let intensities := payload.take count
    if intensities.length ≠ count then
      Except.error "Data corruption: fewer data points than the header specified."
    else
      Except.ok (brukerAngles start_angle step_size count, intensities)
  | _, _, _ =>
    Except.error "File is not a valid Bruker RAW v4 file. Missing essential metadata in the header."

/-! ## `oneXRD.importers.readers.generic_reader`

Embeds `read_generic_text_file` from
`src/oneXRD/importers/readers/generic_reader.py`.  Python strings are
modelled as `List Char`; `str.strip()` is `pyStrip`.
-/

/-- Model of Python `str.strip()`: remove leading and trailing
whitespace. -/
def pyStrip (s : List Char) : List Char :=
  ((s.dropWhile Char.isWhitespace).reverse.dropWhile Char.isWhitespace).reverse

/-- The header test of `read_generic_text_file`'s first loop:

```
line = line.strip()
if not line or line.startswith(('#', '!', '/', ' ')): ...
```

Note the `' '` alternative is tested on the *stripped* line. -/
def isHeaderLine (line : List Char) : Bool :=
  let l := pyStrip line
  l.isEmpty || l.headD 'x' == '#' || l.headD 'x' == '!' || l.headD 'x' == '/' ||
    l.headD 'x' == ' '

/-- The `header_rows` value the first loop of `read_generic_text_file`
computes: the loop sets `header_rows = i + 1` for each leading header
line and breaks at the first non-header line, so the count is the
length of the maximal leading run of header lines. -/
def headerRows (lines : List (List Char)) : ℕ :=
  (lines.takeWhile isHeaderLine).length

/-- Model of the dimensionality of the array `np.loadtxt` returns
(default `ndmin=0`): singleton dimensions are squeezed, so the result
is 2-D exactly when there are at least two rows and at least two
columns; in particular a single data row yields a 1-D array. -/
def loadtxtNdim (rows : List (List ℚ)) : ℕ :=
  if 2 ≤ rows.length ∧ 2 ≤ (rows.headD []).length then 2 else 1

/-- Embedding of the delimiter loop of `read_generic_text_file`:

```
for delimiter in [None, ',', '\t']:
    try:
        data = np.loadtxt(filepath, skiprows=header_rows, delimiter=delimiter)
        if data.ndim == 2 and data.shape[1] >= 2:
            angles = data[:, 0]; intensities = data[:, 1]
            if angles.size == 0: raise DataImportError("File contains no data points.")
            return angles, intensities
    except (ValueError, IndexError):
        continue
raise DataImportError("Could not parse file. ...")
```

Each element of `parses` is the outcome of one `np.loadtxt` call:
`none` when it raised `ValueError`/`IndexError`, `some rows` (its rows,
rectangular) when it parsed. -/
def tryDelimiters : List (Option (List (List ℚ))) → Except String (List ℚ × List ℚ)
  | [] => Except.error "Could not parse file. Ensure it is a valid 2-column numeric text file."
  | none :: rest => tryDelimiters rest
  | some rows :: rest =>
    if loadtxtNdim rows = 2 ∧ 2 ≤ (rows.headD []).length then
      let angles := rows.map (fun r => r.getD 0 0)
      let intensities := rows.map (fun r => r.getD 1 0)
      if angles.length = 0 then Except.error "File contains no data points."
      else Except.ok (angles, intensities)
    else tryDelimiters rest

/-- Embedding of `read_generic_text_file` from the point where the
header-row count has been determined: the three parse outcomes are for
the delimiters `None` (whitespace), `','` and `'\t'`, in that order. -/
def read_generic_text_file (parseWhitespace parseComma parseTab : Option (List (List ℚ))) :
    Except String (List ℚ × List ℚ) :=
  tryDelimiters [parseWhitespace, parseComma, parseTab]

/-! ## `plugins.quantitative_analysis.analysis`

Embeds `calculate_rir_quantification` from
`src/plugins/quantitative_analysis/analysis.py`.  A phase dictionary is
modelled as a structure of `Option` fields: `phase.get('intensity', 0)`
and `phase.get('rir', 0)` become `Option.getD _ 0`.
-/

/-- A phase mapping, as passed to `calculate_rir_quantification`.  A
`none` field models a dictionary missing that key. -/
structure QPhase where
  intensity : Option ℚ
  rir : Option ℚ
deriving DecidableEq, Inhabited

/-- The accumulation loop of `calculate_rir_quantification`:

```
for phase in phase_data:
    intensity = phase.get('intensity', 0)
    rir = phase.get('rir', 0)
    if rir <= 0: raise QpaError(...)
    value = intensity / rir
    i_over_rir_values.append(value)
    i_over_rir_sum += value
```

returns the `i_over_rir_values` list (whose sum is `i_over_rir_sum`),
or the error raised at the first phase with `rir <= 0`. -/
def iOverRirValues : List QPhase → Except String (List ℚ)
  | [] => Except.ok []
  | p :: ps =>
    let intensity := p.intensity.getD 0
    let rir := p.rir.getD 0
    if rir ≤ 0 then Except.error "RIR value for a phase must be greater than 0."
    else
      match iOverRirValues ps with
      | Except.error e => Except.error e
      | Except.ok vs => Except.ok (intensity / rir :: vs)

/-- Embedding of `calculate_rir_quantification(phase_data)`. -/
def calculate_rir_quantification (phase_data : List QPhase) : Except String (List ℚ) :=
  if phase_data.isEmpty then Except.ok []
  else
    match iOverRirValues phase_data with
    | Except.error e => Except.error e
    | Except.ok vals =>
      if vals.sum = 0 then Except.ok (List.replicate phase_data.length 0)
      else Except.ok (vals.map (fun v => v / vals.sum * 100))

/-! ## `oneXRD.analysis.search_match`

Embeds `perform_search_match` from
`src/oneXRD/analysis/search_match.py`.

* `experimental_peaks` is the list of the experimental peaks' angles;
  a peak's pandas index (its `.name`) is its position in the list.
* `reference_pattern` is a list of `(angle, intensity)` pairs.
* `reference_pattern.sort_values(by='intensity', ascending=False)` is
  modelled with a stable descending insertion sort.  (pandas'
  default quicksort may order peaks of *equal* intensity differently;
  no property proved here depends on the order of ties.)
* the `used_exp_indices` set is modelled as a list of indices.
* each match record additionally carries `refIdx` (the loop's
  `ref_idx`) and `expIdx` (`closest_match.name`), which the code holds
  in local variables.
-/

/-- One row of the `match_results` DataFrame, together with the
identity of the reference peak (`refIdx`, position in the sorted
reference) and of the matched experimental peak (`expIdx`). -/
structure MatchRecord where
  refIdx : ℕ
  expIdx : ℕ
  exp_angle : ℚ
  ref_angle : ℚ
  ref_intensity : ℚ
  delta_angle : ℚ

/-- The loop state of `perform_search_match`: `matched_peaks_info`,
`matched_reference_intensity` and `used_exp_indices`. -/
structure SMState where
  matched : List MatchRecord
  matchedIntensity : ℚ
  used : List ℕ

/-- Insert into a descending-by-intensity list, before the first
element of intensity ≤ the inserted one (keeps earlier-listed peaks
first among equal intensities). -/
def insertDesc (p : ℚ × ℚ) : List (ℚ × ℚ) → List (ℚ × ℚ)
  | [] => [p]
  | q :: qs => if q.2 ≤ p.2 then p :: q :: qs else q :: insertDesc p qs

/-- Stable sort by descending intensity, the model of
`sort_values(by='intensity', ascending=False).reset_index(drop=True)`. -/
def sortByIntensity : List (ℚ × ℚ) → List (ℚ × ℚ)
  | [] => []
  | p :: ps => insertDesc p (sortByIntensity ps)

/-- Pair each experimental peak with its index, starting at `i`. -/
def enumFrom (i : ℕ) : List ℚ → List (ℕ × ℚ)
  | [] => []
  | a :: l => (i, a) :: enumFrom (i + 1) l

/-- The `potential_matches` DataFrame for one reference peak: the
experimental peaks inside `[ref_angle - tol, ref_angle + tol]` whose
index is not in `used_exp_indices`. -/
def candidatePeaks (experimental_peaks : List ℚ) (tol refAngle : ℚ) (used : List ℕ) :
    List (ℕ × ℚ) :=
  (enumFrom 0 experimental_peaks).filter
    (fun p => decide (refAngle - tol ≤ p.2 ∧ p.2 ≤ refAngle + tol ∧ p.1 ∉ used))

/-- `potential_matches.iloc[(potential_matches['angle'] -
ref_angle).abs().argmin()]`: the first candidate of minimal
`|angle - ref_angle|` (numpy's `argmin` returns the first minimum). -/
def argminAbs (refAngle : ℚ) : List (ℕ × ℚ) → Option (ℕ × ℚ)
  | [] => none
  | p :: ps =>
    some (ps.foldl (fun best q => if |q.2 - refAngle| < |best.2 - refAngle| then q else best) p)

/-- The body of `perform_search_match`'s loop for one reference peak
`ref = (ref_angle, ref_intensity)` at position `refIdx` of the sorted
reference. -/
def smStep (experimental_peaks : List ℚ) (tol : ℚ) (st : SMState) (refIdx : ℕ)
    (ref : ℚ × ℚ) : SMState :=
  match argminAbs ref.1 (candidatePeaks experimental_peaks tol ref.1 st.used) with
  | none => st
  | some (i, a) =>
    { matched := st.matched ++ [⟨refIdx, i, a, ref.1, ref.2, a - ref.1⟩]
      matchedIntensity := st.matchedIntensity + ref.2
      used := i :: st.used }

/-- `for ref_idx, ref_peak in reference_pattern.iterrows(): ...` -/
def smLoop (experimental_peaks : List ℚ) (tol : ℚ) :
    ℕ → SMState → List (ℚ × ℚ) → SMState
  | _, st, [] => st
  | refIdx, st, r :: rs =>
    smLoop experimental_peaks tol (refIdx + 1) (smStep experimental_peaks tol st refIdx r) rs

/-- Embedding of `perform_search_match(experimental_peaks,
reference_pattern, angle_tolerance)` (the DataFrame column checks are
structural here).  Returns the figure of merit and the match table. -/
def perform_search_match (experimental_peaks : List ℚ) (reference_pattern : List (ℚ × ℚ))
    (angle_tolerance : ℚ) : ℚ × List MatchRecord :=
  if reference_pattern.isEmpty then (0, [])
  else
    let sortedRef := sortByIntensity reference_pattern
    let total := (sortedRef.map (fun r => r.2)).sum
    let final := smLoop experimental_peaks angle_tolerance 0 ⟨[], 0, []⟩ sortedRef
    if final.matched.isEmpty then (0, [])
    else (final.matchedIntensity / total * 100, final.matched)

/-! ## Theorems -/

theorem erosionStep_length (b : List ℚ) : (erosionStep b).length = b.length := by
  simp [erosionStep]

theorem erosionStep_getD_le (b : List ℚ) (i : ℕ) :
    (erosionStep b).getD i 0 ≤ b.getD i 0 := by
  by_cases h : i < b.length
  · rw [List.getD_eq_getElem _ _ (by simpa [erosionStep_length] using h)]
    simp only [erosionStep, List.getElem_map, List.getElem_range]
    rw [List.getD_eq_getElem _ _ h]
    exact min_le_left _ _
  · have h1 : (erosionStep b).length ≤ i := by
      rw [erosionStep_length]; omega
    rw [List.getD_eq_getElem?_getD, List.getElem?_eq_none h1,
      List.getD_eq_getElem?_getD, List.getElem?_eq_none (by omega)]

theorem erosionStep_getD_eq (b : List ℚ) (i : ℕ) (h : i < b.length) :
    (erosionStep b).getD i 0 =
      min (b.getD i 0)
        ((b.getD ((i + b.length - 1) % b.length) 0 + b.getD ((i + 1) % b.length) 0) / 2) := by
  rw [List.getD_eq_getElem _ _ (by simpa [erosionStep_length] using h)]
  simp [erosionStep]

theorem insufficient_anchors_iff_aux
    (angles intensities : List ℚ) (selected_indices : List ℕ) (poly_order : ℕ) :
    subtract_polynomial angles intensities selected_indices poly_order =
        Except.error BgError.insufficientAnchors ↔
      selected_indices.length ≤ poly_order := by
  by_cases h : selected_indices.length ≤ poly_order
  · simp [subtract_polynomial, h]
  · simp only [subtract_polynomial, if_neg h]
    constructor
    · intro hc
      by_cases h2 : selected_indices.any (fun i => angles.length ≤ i || intensities.length ≤ i)
      · rw [if_pos h2] at hc
        exact absurd hc (by simp)
      · rw [if_neg h2] at hc
        exact absurd hc (by simp)
    · intro hc
      exact absurd hc h

/-- **C3.** `subtract_polynomial` raises the `InsufficientAnchors`
`BackgroundError` exactly when the number of supplied anchor indices is
`≤ poly_order`; with `poly_order + 1` or more anchors that error is
never raised. -/
theorem subtract_polynomial_insufficient_iff
    (angles intensities : List ℚ) (selected_indices : List ℕ) (poly_order : ℕ) :
    subtract_polynomial angles intensities selected_indices poly_order =
        Except.error BgError.insufficientAnchors ↔
      selected_indices.length ≤ poly_order :=
  insufficient_anchors_iff_aux angles intensities selected_indices poly_order

/-- Witness for C3 at a concrete input: three anchors with
`poly_order = 3` raise `InsufficientAnchors`. -/
theorem subtract_polynomial_insufficient_iff_witness :
    subtract_polynomial [1, 2, 3, 4] [5, 6, 7, 8] [0, 1, 2] 3 =
      Except.error BgError.insufficientAnchors :=
  (subtract_polynomial_insufficient_iff [1, 2, 3, 4] [5, 6, 7, 8] [0, 1, 2] 3).mpr (by decide)

/-- **C2, counterexample.** The claim says the error is raised whenever
`len(selected_indices) ≤ poly_order + 1`; but with `poly_order = 3` and
4 anchor indices (`4 ≤ 3 + 1`) the call succeeds. -/
theorem subtract_polynomial_order_plus_one_succeeds :
    ([0, 1, 2, 3] : List ℕ).length ≤ 3 + 1 ∧
      (subtract_polynomial [0, 1, 2, 3] [0, 1, 2, 3] [0, 1, 2, 3] 3).isOk = true :=
  ⟨by decide, by decide⟩

/-- **C2 (amended).** `subtract_polynomial` raises `InsufficientAnchors`
whenever the number of supplied anchor indices is ≤ `poly_order`, and a
successful return requires at least `poly_order + 1` anchor indices. -/
theorem subtract_polynomial_anchor_guard
    (angles intensities : List ℚ) (selected_indices : List ℕ) (poly_order : ℕ) :
    (selected_indices.length ≤ poly_order →
      subtract_polynomial angles intensities selected_indices poly_order =
        Except.error BgError.insufficientAnchors) ∧
    ((subtract_polynomial angles intensities selected_indices poly_order).isOk = true →
      poly_order + 1 ≤ selected_indices.length) := by
  constructor
  · intro h
    simp [subtract_polynomial, h]
  · intro h
    by_contra hlt
    have hle : selected_indices.length ≤ poly_order := by omega
    rw [(insufficient_anchors_iff_aux angles intensities selected_indices
      poly_order).mpr hle] at h
    simp [Except.isOk, Except.toBool] at h

/-- **C4.** `subtract_iterative_erosion` starts from the input
intensities, each iteration replaces every point by the minimum of its
current value and the average of its circular (wrap-around) left and
right neighbours, every point is monotonically non-increasing across
iterations, and the result is the deterministic `N`-fold iterate of that
step. -/
theorem subtract_iterative_erosion_spec
    (ints b : List ℚ) (N k i j : ℕ) (h : j < b.length) :
    subtract_iterative_erosion ints 0 = ints ∧
    subtract_iterative_erosion ints (N + 1) =
      erosionStep (subtract_iterative_erosion ints N) ∧
    (erosionStep b).getD j 0 =
      min (b.getD j 0)
        ((b.getD ((j + b.length - 1) % b.length) 0 + b.getD ((j + 1) % b.length) 0) / 2) ∧
    (subtract_iterative_erosion ints (k + 1)).getD i 0 ≤
      (subtract_iterative_erosion ints k).getD i 0 := by
  refine ⟨rfl, ?_, erosionStep_getD_eq b j h, ?_⟩
  · simp [subtract_iterative_erosion, Function.iterate_succ_apply']
  · simp only [subtract_iterative_erosion, Function.iterate_succ_apply']
    exact erosionStep_getD_le _ i

/-- Witness for C4 at the concrete input `[3, 1, 2]`. -/
theorem subtract_iterative_erosion_spec_witness :
    subtract_iterative_erosion [3, 1, 2] 0 = [3, 1, 2] ∧
    subtract_iterative_erosion [3, 1, 2] (0 + 1) =
      erosionStep (subtract_iterative_erosion [3, 1, 2] 0) ∧
    (erosionStep [3, 1, 2]).getD 1 0 =
      min (([3, 1, 2] : List ℚ).getD 1 0)
        ((([3, 1, 2] : List ℚ).getD ((1 + ([3, 1, 2] : List ℚ).length - 1) %
            ([3, 1, 2] : List ℚ).length) 0 +
          ([3, 1, 2] : List ℚ).getD ((1 + 1) % ([3, 1, 2] : List ℚ).length) 0) / 2) ∧
    (subtract_iterative_erosion [3, 1, 2] (0 + 1)).getD 0 0 ≤
      (subtract_iterative_erosion [3, 1, 2] 0).getD 0 0 :=
  subtract_iterative_erosion_spec [3, 1, 2] [3, 1, 2] 0 0 0 1 (by decide)

/-- **C6.** For a Bruker RAW v4 file whose header contains `START`,
`STEPSIZE` and `COUNT` and whose payload holds exactly `COUNT` values,
the reader returns the payload as intensities and angles with
`angle[i] = START + i·STEPSIZE` for every `i < COUNT`. -/
theorem read_bruker_raw_v4_spec (start_angle step_size : ℚ) (count : ℕ)
    (payload : List ℚ) (h : payload.length = count) :
    read_bruker_raw_v4 ⟨some start_angle, some step_size, some count⟩ payload =
      Except.ok (brukerAngles start_angle step_size count, payload) ∧
    ∀ i < count,
      (brukerAngles start_angle step_size count).getD i 0 =
        start_angle + (i : ℚ) * step_size := by
  constructor
  · have htake : payload.take count = payload := List.take_of_length_le (le_of_eq h)
    simp [read_bruker_raw_v4, htake, h]
  · intro i hi
    have hlen : i < (brukerAngles start_angle step_size count).length := by
      rw [brukerAngles, List.length_map, List.length_range]
      exact hi
    rw [brukerAngles] at hlen ⊢
    rw [List.getD_eq_getElem _ _ hlen, List.getElem_map, List.getElem_range]
    ring

/-- Witness for C6 at the repository's own test input:
`START=10.0, STEPSIZE=0.02, COUNT=5` with payload
`[100.0, 150.5, 2000.0, 140.2, 90.0]`. -/
theorem read_bruker_raw_v4_spec_witness :
    read_bruker_raw_v4 ⟨some 10, some (1 / 50), some 5⟩ [100, 301 / 2, 2000, 701 / 5, 90] =
      Except.ok (brukerAngles 10 (1 / 50) 5, [100, 301 / 2, 2000, 701 / 5, 90]) ∧
    (brukerAngles 10 (1 / 50) 5).getD 4 0 = 10 + (4 : ℚ) * (1 / 50) := by
  have h := read_bruker_raw_v4_spec 10 (1 / 50) 5 [100, 301 / 2, 2000, 701 / 5, 90] (by decide)
  exact ⟨h.1, h.2 4 (by decide)⟩

theorem head?_dropWhile_not (p : Char → Bool) (l : List Char) (c : Char)
    (h : (l.dropWhile p).head? = some c) : p c = false := by
  induction l with
  | nil => simp at h
  | cons a l ih =>
    rw [List.dropWhile_cons] at h
    by_cases hp : p a
    · rw [if_pos hp] at h
      exact ih h
    · rw [if_neg hp] at h
      simp only [List.head?_cons, Option.some.injEq] at h
      rw [← h]
      exact Bool.of_not_eq_true hp

theorem getLast?_of_suffix {l w : List Char} (h : l <:+ w) (c : Char)
    (hc : l.getLast? = some c) : w.getLast? = some c := by
  obtain ⟨pre, hpre⟩ := h
  rw [← hpre, List.getLast?_append, hc]
  rfl

theorem pyStrip_headD_not_ws (s : List Char) :
    Char.isWhitespace ((pyStrip s).headD 'x') = false := by
  rw [List.headD_eq_head?_getD]
  unfold pyStrip
  rw [List.head?_reverse]
  cases hv : ((s.dropWhile Char.isWhitespace).reverse.dropWhile Char.isWhitespace).getLast? with
  | none => decide
  | some c =>
    have h1 : (s.dropWhile Char.isWhitespace).reverse.getLast? = some c :=
      getLast?_of_suffix (List.dropWhile_suffix _) c hv
    rw [List.getLast?_reverse] at h1
    exact head?_dropWhile_not Char.isWhitespace _ c h1

/-- **C7, counterexample.** The claim says any leading line whose first
character is whitespace is counted as a header row; but a line of
numeric data indented by one space is where the header scan *stops*:
with lines `"# a"`, `" 10 20"`, `"1 2"` it counts 1 header row, not 2. -/
theorem headerRows_indented_data_counterexample :
    headerRows [['#', ' ', 'a'], [' ', '1', '0', ' ', '2', '0'], ['1', ' ', '2']] = 1 ∧
      ([' ', '1', '0', ' ', '2', '0'] : List Char).headD 'x' = ' ' := by
  constructor
  · decide
  · decide

/-- **C7 (amended).** `read_generic_text_file` counts as header rows
exactly the maximal leading run of lines that are blank *after
stripping* or whose *stripped* form starts with `'#'`, `'!'` or `'/'`
(a line whose raw first character is whitespace is not skipped for that
reason: the test runs on the stripped line, so the `' '` alternative is
dead); when every line is of that form, all lines are counted. -/
theorem headerRows_spec (lines : List (List Char)) (s : List Char) :
    (isHeaderLine s =
      ((pyStrip s).isEmpty || ((pyStrip s).headD 'x' == '#') ||
        ((pyStrip s).headD 'x' == '!') || ((pyStrip s).headD 'x' == '/'))) ∧
    headerRows lines = (lines.takeWhile isHeaderLine).length ∧
    ((∀ l ∈ lines, isHeaderLine l = true) → headerRows lines = lines.length) := by
  refine ⟨?_, rfl, ?_⟩
  · have hws : ((pyStrip s).headD 'x' == ' ') = false := by
      have h := pyStrip_headD_not_ws s
      cases hc : ((pyStrip s).headD 'x' == ' ') with
      | false => rfl
      | true =>
        rw [eq_of_beq hc] at h
        simp at h
    rw [isHeaderLine, hws]
    simp
  · intro h
    rw [headerRows, List.takeWhile_eq_self_iff.mpr h]

/-- Witness for C7's amended statement: a digit line is not a header
line, and a file of only header lines counts every line. -/
theorem headerRows_spec_witness :
    isHeaderLine ['1', '0'] = false ∧ headerRows [['#', 'a'], []] = 2 := by
  have h := headerRows_spec [['#', 'a'], []] ['1', '0']
  constructor
  · rw [h.1]
    decide
  · exact h.2.2 (by decide)

theorem tryDelimiters_single_row (parses : List (Option (List (List ℚ))))
    (h : ∀ rows : List (List ℚ), some rows ∈ parses → rows.length ≤ 1) :
    tryDelimiters parses =
      Except.error "Could not parse file. Ensure it is a valid 2-column numeric text file." := by
  induction parses with
  | nil => rfl
  | cons p rest ih =>
    cases p with
    | none =>
      exact ih (fun rows hr => h rows (List.mem_cons_of_mem _ hr))
    | some rows =>
      have hrow : rows.length ≤ 1 := h rows (List.mem_cons_self _ _)
      have hnd : loadtxtNdim rows = 1 := by
        rw [loadtxtNdim, if_neg]
        intro hc
        omega
      rw [tryDelimiters, if_neg (by rw [hnd]; intro hc; exact absurd hc.1 (by decide))]
      exact ih (fun rows hr => h rows (List.mem_cons_of_mem _ hr))

/-- **C9.** When the data region of the file is a single valid
two-column numeric row, every delimiter's `np.loadtxt` outcome is
either a parse failure or a single row, which the squeezed 1-D shape
check rejects; `read_generic_text_file` therefore raises the
could-not-parse `DataImportError` instead of returning a one-point
series. -/
theorem read_generic_text_file_single_row
    (parseWhitespace parseComma parseTab : Option (List (List ℚ)))
    (h : ∀ rows : List (List ℚ),
      some rows ∈ [parseWhitespace, parseComma, parseTab] → rows.length = 1) :
    read_generic_text_file parseWhitespace parseComma parseTab =
      Except.error "Could not parse file. Ensure it is a valid 2-column numeric text file." :=
  tryDelimiters_single_row _ (fun rows hr => le_of_eq (h rows hr))

/-- Witness for C9: the row `10.0 20.0` parses under the whitespace
delimiter only, as the single row `[[10, 20]]`, and the reader fails. -/
theorem read_generic_text_file_single_row_witness :
    read_generic_text_file (some [[10, 20]]) none none =
      Except.error "Could not parse file. Ensure it is a valid 2-column numeric text file." := by
  have h := read_generic_text_file_single_row (some [[10, 20]]) none none
  apply h
  intro rows hr
  simp only [List.mem_cons, List.not_mem_nil, or_false, reduceCtorEq,
    Option.some.injEq] at hr
  subst hr
  rfl

theorem iOverRirValues_error_iff (ps : List QPhase) :
    (∃ e, iOverRirValues ps = Except.error e) ↔ ∃ p ∈ ps, p.rir.getD 0 ≤ 0 := by
  induction ps with
  | nil => simp [iOverRirValues]
  | cons p ps ih =>
    by_cases hp : p.rir.getD 0 ≤ 0
    · simp only [iOverRirValues, if_pos hp]
      constructor
      · intro _
        exact ⟨p, List.mem_cons_self _ _, hp⟩
      · intro _
        exact ⟨_, rfl⟩
    · simp only [iOverRirValues, if_neg hp]
      cases hps : iOverRirValues ps with
      | error e =>
        constructor
        · intro _
          obtain ⟨q, hq, hq0⟩ := ih.mp ⟨e, hps⟩
          exact ⟨q, List.mem_cons_of_mem _ hq, hq0⟩
        · intro _
          exact ⟨e, rfl⟩
      | ok vs =>
        constructor
        · intro ⟨e, he⟩
          exact absurd he (by simp)
        · intro ⟨q, hq, hq0⟩
          rcases List.mem_cons.mp hq with hq | hq
          · exact absurd (hq ▸ hq0) hp
          · obtain ⟨e, he⟩ := ih.mpr ⟨q, hq, hq0⟩
            rw [he] at hps
            exact absurd hps (by simp)

theorem iOverRirValues_ok (ps : List QPhase) (h : ∀ p ∈ ps, 0 < p.rir.getD 0) :
    iOverRirValues ps =
      Except.ok (ps.map (fun p => p.intensity.getD 0 / p.rir.getD 0)) := by
  induction ps with
  | nil => rfl
  | cons p ps ih =>
    have hp : ¬ p.rir.getD 0 ≤ 0 := not_le.mpr (h p (List.mem_cons_self _ _))
    rw [iOverRirValues, if_neg hp, ih (fun q hq => h q (List.mem_cons_of_mem _ hq))]
    rfl

/-- **C8.** `calculate_rir_quantification` raises `QpaError` exactly
when some phase's RIR (default 0) is ≤ 0; otherwise with
`v_i = intensity_i / RIR_i` it returns all zeros when `Σv = 0` and
`v_i / Σv · 100` per phase when `Σv ≠ 0`; an empty phase list returns
an empty result. -/
theorem calculate_rir_quantification_spec (pd pd2 : List QPhase)
    (h : ∀ p ∈ pd, 0 < p.rir.getD 0) :
    calculate_rir_quantification [] = Except.ok [] ∧
    ((∃ e, calculate_rir_quantification pd2 = Except.error e) ↔
      ∃ p ∈ pd2, p.rir.getD 0 ≤ 0) ∧
    ((pd.map (fun p => p.intensity.getD 0 / p.rir.getD 0)).sum = 0 →
      calculate_rir_quantification pd = Except.ok (List.replicate pd.length 0)) ∧
    ((pd.map (fun p => p.intensity.getD 0 / p.rir.getD 0)).sum ≠ 0 →
      calculate_rir_quantification pd =
        Except.ok ((pd.map (fun p => p.intensity.getD 0 / p.rir.getD 0)).map
          (fun v => v / (pd.map (fun p => p.intensity.getD 0 / p.rir.getD 0)).sum * 100))) := by
  refine ⟨rfl, ?_, ?_, ?_⟩
  · cases pd2 with
    | nil =>
      constructor
      · intro ⟨e, he⟩
        exact absurd he (by simp [calculate_rir_quantification])
      · intro ⟨p, hp, _⟩
        exact absurd hp (by simp)
    | cons q qs =>
      rw [← iOverRirValues_error_iff]
      constructor
      · intro ⟨e, he⟩
        rw [calculate_rir_quantification] at he
        simp only [List.isEmpty_cons, if_false, Bool.false_eq_true] at he
        split at he
        next e2 heq => exact ⟨e2, heq⟩
        next vs heq =>
          split at he
          · exact absurd he (by simp)
          · exact absurd he (by simp)
      · intro ⟨e, he⟩
        refine ⟨e, ?_⟩
        rw [calculate_rir_quantification]
        simp only [List.isEmpty_cons, if_false, Bool.false_eq_true]
        rw [he]
  · intro hs
    cases pd with
    | nil => rfl
    | cons q qs =>
      rw [calculate_rir_quantification]
      simp only [List.isEmpty_cons, if_false, Bool.false_eq_true]
      rw [iOverRirValues_ok _ h]
      dsimp only
      rw [if_pos hs]
  · intro hs
    cases pd with
    | nil => exact absurd rfl hs
    | cons q qs =>
      rw [calculate_rir_quantification]
      simp only [List.isEmpty_cons, if_false, Bool.false_eq_true]
      rw [iOverRirValues_ok _ h]
      dsimp only
      rw [if_neg hs]

/-- Witness for C8 at a concrete input: phases with intensities 30, 10
and RIRs 1, 1 give weight percents 75% and 25%. -/
theorem calculate_rir_quantification_spec_witness :
    calculate_rir_quantification [⟨some 30, some 1⟩, ⟨some 10, some 1⟩] =
      Except.ok [75, 25] := by
  have h := calculate_rir_quantification_spec
    [⟨some 30, some 1⟩, ⟨some 10, some 1⟩] []
    (by intro p hp; fin_cases hp <;> norm_num)
  have h4 := h.2.2.2 (by norm_num)
  rw [h4]
  norm_num

theorem calc_error_of_nonpos_rir (pd2 : List QPhase)
    (hbad : ∃ p ∈ pd2, p.rir.getD 0 ≤ 0) :
    ∃ e, calculate_rir_quantification pd2 = Except.error e := by
  obtain ⟨e, he⟩ := (iOverRirValues_error_iff pd2).mpr hbad
  refine ⟨e, ?_⟩
  cases pd2 with
  | nil =>
    obtain ⟨p, hp, _⟩ := hbad
    exact absurd hp (by simp)
  | cons q qs =>
    rw [calculate_rir_quantification]
    simp only [List.isEmpty_cons, if_false, Bool.false_eq_true]
    rw [he]

/-- **C10.** A phase mapping without an `'rir'` key defaults to RIR 0
and always makes `calculate_rir_quantification` raise `QpaError`, while
a phase mapping without an `'intensity'` key defaults to intensity 0
and silently contributes a weight percent of 0, with no error. -/
theorem qphase_missing_keys (pd : List QPhase) (i : ℕ) (hi : i < pd.length)
    (hrir : ∀ p ∈ pd, 0 < p.rir.getD 0)
    (hint : (pd.get ⟨i, hi⟩).intensity = none) :
    (∀ pd2 : List QPhase, (∃ p ∈ pd2, p.rir = none) →
      ∃ e, calculate_rir_quantification pd2 = Except.error e) ∧
    ∃ l, calculate_rir_quantification pd = Except.ok l ∧
      l.length = pd.length ∧ l.getD i 0 = 0 := by
  constructor
  · intro pd2 hbad
    obtain ⟨p, hp, hnone⟩ := hbad
    exact calc_error_of_nonpos_rir pd2 ⟨p, hp, by rw [hnone]; exact le_refl 0⟩
  · have hne : pd.isEmpty = false := by
      cases pd with
      | nil => exact absurd hi (by simp)
      | cons q qs => rfl
    rw [calculate_rir_quantification, hne]
    simp only [Bool.false_eq_true, if_false]
    rw [iOverRirValues_ok pd hrir]
    dsimp only
    rw [List.get_eq_getElem] at hint
    by_cases hs : (pd.map fun p => p.intensity.getD 0 / p.rir.getD 0).sum = 0
    · rw [if_pos hs]
      refine ⟨_, rfl, by rw [List.length_replicate], ?_⟩
      have hlen : i < (List.replicate pd.length (0 : ℚ)).length := by
        rw [List.length_replicate]
        exact hi
      rw [List.getD_eq_getElem _ _ hlen]
      simp
    · rw [if_neg hs]
      have hlen : i < ((pd.map fun p => p.intensity.getD 0 / p.rir.getD 0).map
          (fun v => v / (pd.map fun p => p.intensity.getD 0 / p.rir.getD 0).sum * 100)).length := by
        rw [List.length_map, List.length_map]
        exact hi
      refine ⟨_, rfl, by rw [List.length_map, List.length_map], ?_⟩
      rw [List.getD_eq_getElem _ _ hlen, List.getElem_map, List.getElem_map, hint]
      simp

/-- Witness for C10: a phase lacking `'rir'` raises, and a phase
lacking `'intensity'` contributes weight percent 0. -/
theorem qphase_missing_keys_witness :
    (∃ e, calculate_rir_quantification [⟨some 5, none⟩] = Except.error e) ∧
    ∃ l, calculate_rir_quantification [⟨none, some 2⟩, ⟨some 4, some 2⟩] = Except.ok l ∧
      l.length = 2 ∧ l.getD 0 0 = 0 := by
  have h := qphase_missing_keys [⟨none, some 2⟩, ⟨some 4, some 2⟩] 0 (by decide)
    (by intro p hp; fin_cases hp <;> norm_num) rfl
  exact ⟨h.1 [⟨some 5, none⟩] ⟨⟨some 5, none⟩, by simp, rfl⟩, h.2⟩

theorem insertDesc_perm (p : ℚ × ℚ) (l : List (ℚ × ℚ)) :
    (insertDesc p l).Perm (p :: l) := by
  induction l with
  | nil => exact List.Perm.refl _
  | cons q qs ih =>
    rw [insertDesc]
    by_cases hc : q.2 ≤ p.2
    · rw [if_pos hc]
    · rw [if_neg hc]
      exact (ih.cons q).trans (List.Perm.swap p q qs)

theorem sortByIntensity_perm (l : List (ℚ × ℚ)) : (sortByIntensity l).Perm l := by
  induction l with
  | nil => exact List.Perm.refl _
  | cons p ps ih =>
    exact (insertDesc_perm p (sortByIntensity ps)).trans (ih.cons p)

theorem foldl_closest_mem (refAngle : ℚ) (ps : List (ℕ × ℚ)) :
    ∀ p : ℕ × ℚ,
      ps.foldl (fun best q => if |q.2 - refAngle| < |best.2 - refAngle| then q else best) p ∈
        p :: ps := by
  induction ps with
  | nil =>
    intro p
    exact List.mem_cons_self _ _
  | cons q qs ih =>
    intro p
    rw [List.foldl_cons]
    by_cases hc : |q.2 - refAngle| < |p.2 - refAngle|
    · rw [if_pos hc]
      exact List.mem_cons_of_mem _ (ih q)
    · rw [if_neg hc]
      rcases List.mem_cons.mp (ih p) with h | h
      · rw [h]
        exact List.mem_cons_self _ _
      · exact List.mem_cons_of_mem _ (List.mem_cons_of_mem _ h)

theorem argminAbs_mem (refAngle : ℚ) (l : List (ℕ × ℚ)) (c : ℕ × ℚ)
    (h : argminAbs refAngle l = some c) : c ∈ l := by
  cases l with
  | nil => exact absurd h (by simp [argminAbs])
  | cons p ps =>
    rw [argminAbs, Option.some_inj] at h
    rw [← h]
    exact foldl_closest_mem refAngle ps p

theorem candidatePeaks_not_used (exp : List ℚ) (tol refAngle : ℚ) (used : List ℕ)
    (c : ℕ × ℚ) (h : c ∈ candidatePeaks exp tol refAngle used) : c.1 ∉ used := by
  have h2 := List.of_mem_filter h
  simp only [decide_eq_true_eq] at h2
  exact h2.2.2

theorem smStep_inv (exp : List ℚ) (tol : ℚ) (st : SMState) (idx : ℕ) (r : ℚ × ℚ)
    (h1 : (st.matched.map (fun m => m.expIdx)).Nodup)
    (h2 : ∀ m ∈ st.matched, m.expIdx ∈ st.used)
    (h3 : (st.matched.map (fun m => m.refIdx)).Nodup)
    (h4 : ∀ m ∈ st.matched, m.refIdx < idx) :
    ((smStep exp tol st idx r).matched.map (fun m => m.expIdx)).Nodup ∧
    (∀ m ∈ (smStep exp tol st idx r).matched, m.expIdx ∈ (smStep exp tol st idx r).used) ∧
    ((smStep exp tol st idx r).matched.map (fun m => m.refIdx)).Nodup ∧
    (∀ m ∈ (smStep exp tol st idx r).matched, m.refIdx < idx + 1) := by
  cases harg : argminAbs r.1 (candidatePeaks exp tol r.1 st.used) with
  | none =>
    simp only [smStep, harg]
    exact ⟨h1, h2, h3, fun m hm => Nat.lt_succ_of_lt (h4 m hm)⟩
  | some c =>
    obtain ⟨i, a⟩ := c
    have hnotused : i ∉ st.used :=
      candidatePeaks_not_used exp tol r.1 st.used (i, a)
        (argminAbs_mem r.1 _ (i, a) harg)
    simp only [smStep, harg]
    refine ⟨?_, ?_, ?_, ?_⟩
    · rw [List.map_append, List.nodup_append]
      refine ⟨h1, List.nodup_singleton i, ?_⟩
      intro x hx hx2
      simp only [List.map_cons, List.map_nil, List.mem_singleton] at hx2
      obtain ⟨m, hm, hmx⟩ := List.mem_map.mp hx
      rw [hx2] at hmx
      exact hnotused (hmx ▸ h2 m hm)
    · intro m hm
      rcases List.mem_append.mp hm with hm | hm
      · exact List.mem_cons_of_mem _ (h2 m hm)
      · simp only [List.mem_singleton] at hm
        rw [hm]
        exact List.mem_cons_self _ _
    · rw [List.map_append, List.nodup_append]
      refine ⟨h3, List.nodup_singleton idx, ?_⟩
      intro x hx hx2
      simp only [List.map_cons, List.map_nil, List.mem_singleton] at hx2
      obtain ⟨m, hm, hmx⟩ := List.mem_map.mp hx
      have := h4 m hm
      omega
    · intro m hm
      rcases List.mem_append.mp hm with hm | hm
      · exact Nat.lt_succ_of_lt (h4 m hm)
      · simp only [List.mem_singleton] at hm
        rw [hm]
        exact Nat.lt_succ_self idx

theorem smLoop_nodup (exp : List ℚ) (tol : ℚ) (rs : List (ℚ × ℚ)) :
    ∀ (idx : ℕ) (st : SMState),
      (st.matched.map (fun m => m.expIdx)).Nodup →
      (∀ m ∈ st.matched, m.expIdx ∈ st.used) →
      (st.matched.map (fun m => m.refIdx)).Nodup →
      (∀ m ∈ st.matched, m.refIdx < idx) →
      ((smLoop exp tol idx st rs).matched.map (fun m => m.expIdx)).Nodup ∧
      ((smLoop exp tol idx st rs).matched.map (fun m => m.refIdx)).Nodup := by
  induction rs with
  | nil =>
    intro idx st h1 _ h3 _
    exact ⟨h1, h3⟩
  | cons r rs ih =>
    intro idx st h1 h2 h3 h4
    rw [smLoop]
    obtain ⟨g1, g2, g3, g4⟩ := smStep_inv exp tol st idx r h1 h2 h3 h4
    exact ih (idx + 1) _ g1 g2 g3 g4

theorem smStep_intensity_cases (exp : List ℚ) (tol : ℚ) (st : SMState) (idx : ℕ)
    (r : ℚ × ℚ) :
    (smStep exp tol st idx r).matchedIntensity = st.matchedIntensity ∨
    (smStep exp tol st idx r).matchedIntensity = st.matchedIntensity + r.2 := by
  cases harg : argminAbs r.1 (candidatePeaks exp tol r.1 st.used) with
  | none =>
    left
    simp [smStep, harg]
  | some c =>
    right
    obtain ⟨i, a⟩ := c
    simp [smStep, harg]

theorem smStep_sum (exp : List ℚ) (tol : ℚ) (st : SMState) (idx : ℕ) (r : ℚ × ℚ)
    (h : st.matchedIntensity = (st.matched.map (fun m => m.ref_intensity)).sum) :
    (smStep exp tol st idx r).matchedIntensity =
      ((smStep exp tol st idx r).matched.map (fun m => m.ref_intensity)).sum := by
  cases harg : argminAbs r.1 (candidatePeaks exp tol r.1 st.used) with
  | none =>
    simp only [smStep, harg]
    exact h
  | some c =>
    obtain ⟨i, a⟩ := c
    simp only [smStep, harg, List.map_append, List.sum_append, List.map_cons, List.map_nil,
      List.sum_cons, List.sum_nil]
    rw [h]
    ring

theorem smLoop_sum (exp : List ℚ) (tol : ℚ) (rs : List (ℚ × ℚ)) :
    ∀ (idx : ℕ) (st : SMState),
      st.matchedIntensity = (st.matched.map (fun m => m.ref_intensity)).sum →
      (smLoop exp tol idx st rs).matchedIntensity =
        ((smLoop exp tol idx st rs).matched.map (fun m => m.ref_intensity)).sum := by
  induction rs with
  | nil =>
    intro idx st h
    exact h
  | cons r rs ih =>
    intro idx st h
    rw [smLoop]
    exact ih (idx + 1) _ (smStep_sum exp tol st idx r h)

theorem smLoop_intensity_bounds (exp : List ℚ) (tol : ℚ) (rs : List (ℚ × ℚ)) :
    ∀ (idx : ℕ) (st : SMState), (∀ r ∈ rs, 0 ≤ r.2) →
      st.matchedIntensity ≤ (smLoop exp tol idx st rs).matchedIntensity ∧
      (smLoop exp tol idx st rs).matchedIntensity ≤
        st.matchedIntensity + (rs.map (fun r => r.2)).sum := by
  induction rs with
  | nil =>
    intro idx st _
    rw [show smLoop exp tol idx st [] = st from rfl]
    exact ⟨le_refl _, by simp⟩
  | cons r rs ih =>
    intro idx st hnn
    rw [smLoop]
    have hr : 0 ≤ r.2 := hnn r (List.mem_cons_self _ _)
    have hrest : ∀ q ∈ rs, 0 ≤ q.2 := fun q hq => hnn q (List.mem_cons_of_mem _ hq)
    obtain ⟨ihl, ihr⟩ := ih (idx + 1) (smStep exp tol st idx r) hrest
    have hstep := smStep_intensity_cases exp tol st idx r
    constructor
    · rcases hstep with hstep | hstep
      · rw [hstep] at ihl
        exact ihl
      · refine le_trans ?_ ihl
        rw [hstep]
        linarith
    · rw [List.map_cons, List.sum_cons]
      rcases hstep with hstep | hstep
      · rw [hstep] at ihr
        have hsum : 0 ≤ (rs.map (fun r => r.2)).sum :=
          List.sum_nonneg (by
            intro x hx
            obtain ⟨q, hq, hqx⟩ := List.mem_map.mp hx
            rw [← hqx]
            exact hrest q hq)
        linarith
      · rw [hstep] at ihr
        linarith

/-- **C5.** Every match table `perform_search_match` produces is a 1:1
assignment: the records' reference-peak identities are pairwise
distinct (at most one record per reference peak), and the records'
experimental-peak identities are pairwise distinct (no experimental
peak is consumed by two reference peaks). -/
theorem perform_search_match_one_to_one (experimental_peaks : List ℚ)
    (reference_pattern : List (ℚ × ℚ)) (angle_tolerance : ℚ) :
    (((perform_search_match experimental_peaks reference_pattern angle_tolerance).2.map
        (fun m => m.refIdx)).Nodup) ∧
    (((perform_search_match experimental_peaks reference_pattern angle_tolerance).2.map
        (fun m => m.expIdx)).Nodup) := by
  by_cases href : reference_pattern.isEmpty
  · simp [perform_search_match, href]
  · rw [perform_search_match, if_neg href]
    by_cases hm : (smLoop experimental_peaks angle_tolerance 0 ⟨[], 0, []⟩
        (sortByIntensity reference_pattern)).matched.isEmpty
    · simp only [hm, if_true]
      exact ⟨List.nodup_nil, List.nodup_nil⟩
    · simp only [hm, Bool.false_eq_true, if_false]
      obtain ⟨g1, g2⟩ := smLoop_nodup experimental_peaks angle_tolerance
        (sortByIntensity reference_pattern) 0 ⟨[], 0, []⟩
        List.nodup_nil (by intro m hm2; exact absurd hm2 (by simp))
        List.nodup_nil (by intro m hm2; exact absurd hm2 (by simp))
      exact ⟨g2, g1⟩

/-- **C1, counterexample.** The claimed bound `FOM ∈ [0, 100]` fails
when a reference intensity is negative (nothing in the code forbids
it): with one experimental peak at 10 and reference peaks `(10, 100)`
and `(50, -50)`, only the intensity-100 peak matches, the total
reference intensity is `50`, and the figure of merit is
`100 / 50 × 100 = 200 > 100`. -/
theorem perform_search_match_fom_counterexample :
    (perform_search_match [10] [(10, 100), (50, -50)] 1).1 = 200 ∧
      ¬(perform_search_match [10] [(10, 100), (50, -50)] 1).1 ≤ 100 := by
  have h : (perform_search_match [10] [(10, 100), (50, -50)] 1).1 = 200 := by
    norm_num [perform_search_match, sortByIntensity, insertDesc, smLoop, smStep,
      candidatePeaks, argminAbs, enumFrom, List.filter]
  refine ⟨h, ?_⟩
  rw [h]
  norm_num

theorem psm_eq (exp : List ℚ) (ref : List (ℚ × ℚ)) (tol : ℚ)
    (h : ref.isEmpty = false) :
    perform_search_match exp ref tol =
      if (smLoop exp tol 0 ⟨[], 0, []⟩ (sortByIntensity ref)).matched.isEmpty then (0, [])
      else ((smLoop exp tol 0 ⟨[], 0, []⟩ (sortByIntensity ref)).matchedIntensity /
          ((sortByIntensity ref).map (fun r => r.2)).sum * 100,
        (smLoop exp tol 0 ⟨[], 0, []⟩ (sortByIntensity ref)).matched) := by
  unfold perform_search_match
  rw [h]
  simp only [Bool.false_eq_true, if_false]

/-- **C1 (amended).** For inputs with the required columns whose
reference intensities are all nonnegative with positive total, the
figure of merit equals the matched reference intensity divided by the
total reference intensity times 100 and lies in `[0, 100]`; when no
reference peak is matched, and also when the reference pattern is
empty, the function returns `0.0` with an empty match table instead of
raising.  (Without the nonnegativity hypothesis the `[0, 100]` bound is
false, see the counterexample.) -/
theorem perform_search_match_fom_spec (experimental_peaks : List ℚ)
    (reference_pattern : List (ℚ × ℚ)) (angle_tolerance : ℚ)
    (hpos : ∀ p ∈ reference_pattern, 0 ≤ p.2)
    (htot : 0 < (reference_pattern.map (fun p => p.2)).sum) :
    (∀ (exp2 : List ℚ) (tol2 : ℚ), perform_search_match exp2 [] tol2 = (0, [])) ∧
    ((perform_search_match experimental_peaks reference_pattern angle_tolerance).2 = [] →
      (perform_search_match experimental_peaks reference_pattern angle_tolerance).1 = 0) ∧
    ((perform_search_match experimental_peaks reference_pattern angle_tolerance).2 ≠ [] →
      (perform_search_match experimental_peaks reference_pattern angle_tolerance).1 =
        ((perform_search_match experimental_peaks reference_pattern angle_tolerance).2.map
            (fun m => m.ref_intensity)).sum /
          (reference_pattern.map (fun p => p.2)).sum * 100) ∧
    (0 ≤ (perform_search_match experimental_peaks reference_pattern angle_tolerance).1 ∧
      (perform_search_match experimental_peaks reference_pattern angle_tolerance).1 ≤ 100) := by
  have hperm := sortByIntensity_perm reference_pattern
  have hsum_eq : ((sortByIntensity reference_pattern).map (fun r => r.2)).sum =
      (reference_pattern.map (fun p => p.2)).sum := (hperm.map (fun r => r.2)).sum_eq
  have hpos2 : ∀ p ∈ sortByIntensity reference_pattern, 0 ≤ p.2 := by
    intro p hp
    exact hpos p (hperm.mem_iff.mp hp)
  have hrefE : reference_pattern.isEmpty = false := by
    cases reference_pattern with
    | nil => exact absurd htot (by simp)
    | cons q qs => rfl
  have htot2 : 0 < ((sortByIntensity reference_pattern).map (fun r => r.2)).sum := by
    rw [hsum_eq]
    exact htot
  have hS_sum := smLoop_sum experimental_peaks angle_tolerance
    (sortByIntensity reference_pattern) 0 ⟨[], 0, []⟩ rfl
  have hbounds := smLoop_intensity_bounds experimental_peaks angle_tolerance
    (sortByIntensity reference_pattern) 0 ⟨[], 0, []⟩ hpos2
  have hlow : (0 : ℚ) ≤ (smLoop experimental_peaks angle_tolerance 0 ⟨[], 0, []⟩
      (sortByIntensity reference_pattern)).matchedIntensity := hbounds.1
  have hup : (smLoop experimental_peaks angle_tolerance 0 ⟨[], 0, []⟩
        (sortByIntensity reference_pattern)).matchedIntensity ≤
      ((sortByIntensity reference_pattern).map (fun r => r.2)).sum := by
    have h := hbounds.2
    rw [show (SMState.mk [] 0 []).matchedIntensity = 0 from rfl, zero_add] at h
    exact h
  rw [psm_eq experimental_peaks reference_pattern angle_tolerance hrefE]
  by_cases hm : (smLoop experimental_peaks angle_tolerance 0 ⟨[], 0, []⟩
      (sortByIntensity reference_pattern)).matched.isEmpty
  · rw [if_pos hm]
    refine ⟨fun exp2 tol2 => rfl, fun _ => rfl, ?_, by norm_num⟩
    intro h
    exact absurd rfl h
  · rw [if_neg hm]
    refine ⟨fun exp2 tol2 => rfl, ?_, ?_, ?_, ?_⟩
    · intro h
      simp only at h
      rw [h] at hm
      exact absurd rfl hm
    · intro _
      simp only
      rw [hS_sum, hsum_eq]
    · exact mul_nonneg (div_nonneg hlow (le_of_lt htot2)) (by norm_num)
    · have hdiv : (smLoop experimental_peaks angle_tolerance 0 ⟨[], 0, []⟩
            (sortByIntensity reference_pattern)).matchedIntensity /
          ((sortByIntensity reference_pattern).map (fun r => r.2)).sum ≤ 1 :=
        (div_le_one htot2).mpr hup
      calc (smLoop experimental_peaks angle_tolerance 0 ⟨[], 0, []⟩
            (sortByIntensity reference_pattern)).matchedIntensity /
          ((sortByIntensity reference_pattern).map (fun r => r.2)).sum * 100 ≤ 1 * 100 :=
            mul_le_mul_of_nonneg_right hdiv (by norm_num)
        _ = 100 := one_mul 100

/-- Witness for C1's amended statement: two reference peaks of
intensities 60 and 40, one matched, would give a figure of merit in
`[0, 100]`. -/
theorem perform_search_match_fom_spec_witness :
    0 ≤ (perform_search_match [10, 20] [(10, 60), (30, 40)] 1).1 ∧
      (perform_search_match [10, 20] [(10, 60), (30, 40)] 1).1 ≤ 100 :=
  (perform_search_match_fom_spec [10, 20] [(10, 60), (30, 40)] 1
    (by intro p hp; fin_cases hp <;> norm_num) (by norm_num)).2.2.2

/-- Witness for C2's amended statement: with `poly_order = 3`, two
anchors raise `InsufficientAnchors`. -/
theorem subtract_polynomial_anchor_guard_witness :
    subtract_polynomial [1, 2, 3, 4] [5, 6, 7, 8] [0, 1] 3 =
      Except.error BgError.insufficientAnchors :=
  (subtract_polynomial_anchor_guard [1, 2, 3, 4] [5, 6, 7, 8] [0, 1] 3).1 (by decide)

end OneXRD
